import Mathlib

/-!
Shallow embedding of the chart-construction core of `lotto.py`: the `Draw`
data model, the draw-store filters (`filter_by_weekdays`,
`filter_by_cutoff_date`, `filter_results`), and the `DrawChart` matrix,
color and statistics computations.  Dates are modelled as proleptic
Gregorian day ordinals (the value of `datetime.date.toordinal()`), so that
date comparison is integer comparison, `date - timedelta(weeks=w)` is
subtraction of `7*w`, and `date.weekday()` is `(ordinal - 1) % 7`
(ordinal 1, 0001-01-01, is a Monday).
-/

/-- The `Draw` namedtuple of `lotto.py`: a sequence of integers identified
by a date and draw number, together with the inclusive legal number range. -/
structure Draw where
  draw_num : Int
  date : Int
  numbers : List Int
  lowest : Int
  highest : Int
deriving DecidableEq

/-- `datetime.date.weekday()` on the ordinal encoding: 0 = Monday … 6 = Sunday. -/
def Draw.weekday (d : Draw) : Int := (d.date - 1) % 7

/-- A results dictionary `{filename: list of Draws}`, modelled as an
insertion-ordered association list (Python dicts preserve insertion order). -/
abbrev Store := List (String × List Draw)

/-- `tuple(itertools.chain(*results.values()))` — every draw of the store in
group order. -/
def storeDraws (results : Store) : List Draw :=
  (results.map Prod.snd).flatten

/-- `last_date` of `lotto.py`: the latest date over all draws in `results`,
`None` when the store holds no draws at all. -/
def last_date (results : Store) : Option Int :=
  ((storeDraws results).map Draw.date).max?

/-- The local `filtered` of `filter_by_weekdays`: per group, only the draws
whose weekday is in `days`. -/
def weekdayFiltered (results : Store) (days : List Int) : Store :=
  results.map (fun p =>
    (p.1, p.2.filter (fun draw => decide (draw.weekday ∈ days))))

/-- The local `days_found` of `filter_by_weekdays`: the set of weekdays that
actually occur among the filtered draws (a Python `set`, modelled as a
deduplicated list). -/
def weekdaysFound (filtered : Store) : List Int :=
  ((filtered.map (fun p => p.2.map Draw.weekday)).flatten).dedup

/-- `filter_by_weekdays` of `lotto.py`: keep only draws whose weekday is in
`days`; if fewer distinct weekdays are present in the filtered result than
`days` requests, discard everything and return the empty store. -/
def filter_by_weekdays (results : Store) (days : List Int) : Store :=
  if (weekdaysFound (weekdayFiltered results days)).length < days.length then []
  else weekdayFiltered results days

/-- `filter_by_cutoff_date` of `lotto.py`: keep only draws strictly after
`last_date(results) - weeks * 7` days.  The literal empty dictionary is
returned unchanged; when the store is non-empty but holds zero draws,
`last_date` returns `None` and `None - timedelta(...)` raises a `TypeError`,
modelled here as `none`. -/
def filter_by_cutoff_date (results : Store) (weeks : Int) : Option Store :=
  if results = [] then some []
  else
    match last_date results with
    | none => none
    | some latest =>
        some (results.map (fun p =>
          (p.1, p.2.filter (fun draw => decide (latest - weeks * 7 < draw.date)))))

/-- `filter_results` of `lotto.py`: weekday filter, then cutoff filter, then
drop every group whose draw list became empty. -/
def filter_results (results : Store) (days : List Int) (weeks : Int) :
    Option Store :=
  (filter_by_cutoff_date (filter_by_weekdays results days) weeks).map
    (fun filtered => filtered.filter (fun p => decide (p.2 ≠ [])))

/-- `DrawChart.WHITE`, the background fill of the color matrix and the value
`calc_color` returns when no rule matches. -/
def WHITE : String := "#FFFFFE"

/-- `DrawChart.GOLD`. -/
def GOLD : String := "#FFFF00"

/-- `DrawChart.BLUE`. -/
def BLUE : String := "#66CCFF"

/-- `DrawChart.PINK`. -/
def PINK : String := "#FF6FCF"

/-- `DrawChart.GREEN`. -/
def GREEN : String := "#66FF66"

/-- `DrawChart.COLOR_RULES`, an ordered rule table.  Each rule lists the
required cells with the previous row's cell at position 0 and earlier rows at
higher indexes. -/
def COLOR_RULES : List (List Bool × String) :=
  [([true, true], GREEN),
   ([false, false, true], PINK),
   ([false, true], BLUE),
   ([true], GOLD)]

/-- `DrawChart.TEXT_COLS`: the date and filename columns. -/
def TEXT_COLS : Nat := 2

/-- `DrawChart.HEADER_HEIGHT`. -/
def HEADER_HEIGHT : Nat := 1

/-- `DrawChart.FOOTER_HEIGHT`: draw percentages plus one tally row per rule. -/
def FOOTER_HEIGHT : Nat := 1 + COLOR_RULES.length

/-- `max(len(rule) for rule in self.COLOR_RULES.keys())`. -/
def max_rule_length : Nat :=
  (COLOR_RULES.map (fun rc => rc.1.length)).foldl max 0

/-- `range(self.lowest, self.highest + 1)`: the numeric column labels. -/
def numberRange (lowest highest : Int) : List Int :=
  (List.range (highest + 1 - lowest).toNat).map (fun i => lowest + Int.ofNat i)

/-- One body row built by `DrawChart.create_matrix`:
`[draw.date, fn] + [num in draw.numbers for num in range(lowest, highest+1)]`,
with the two leading text cells held in named fields. -/
structure BodyRow where
  date : Int
  file : String
  cells : List Bool
deriving DecidableEq

/-- The row `DrawChart.create_matrix` appends for one draw of group `fn`. -/
def drawRow (fn : String) (draw : Draw) (lowest highest : Int) : BodyRow :=
  { date := draw.date, file := fn,
    cells := (numberRange lowest highest).map (fun n => decide (n ∈ draw.numbers)) }

/-- The sort key order of `matrix.sort(key=itemgetter(date_col, file_col))`:
lexicographic on `(date, filename)`. -/
def rowKeyLe (r1 r2 : BodyRow) : Prop :=
  r1.date < r2.date ∨ (r1.date = r2.date ∧ r1.file ≤ r2.file)

instance : DecidableRel rowKeyLe := fun _ _ =>
  inferInstanceAs (Decidable (_ ∨ _))

instance : IsTotal BodyRow rowKeyLe where
  total r1 r2 := by
    rcases lt_trichotomy r1.date r2.date with h | h | h
    · exact Or.inl (Or.inl h)
    · rcases le_total r1.file r2.file with hf | hf
      · exact Or.inl (Or.inr ⟨h, hf⟩)
      · exact Or.inr (Or.inr ⟨h.symm, hf⟩)
    · exact Or.inr (Or.inl h)

instance : IsTrans BodyRow rowKeyLe where
  trans a b c hab hbc := by
    rcases hab with h1 | ⟨h1, hf1⟩ <;> rcases hbc with h2 | ⟨h2, hf2⟩
    · exact Or.inl (h1.trans h2)
    · exact Or.inl (h2 ▸ h1)
    · exact Or.inl (h1 ▸ h2)
    · exact Or.inr ⟨h1.trans h2, hf1.trans hf2⟩

/-- The unsorted matrix of `DrawChart.create_matrix`: one row per draw, in
store iteration order. -/
def chartRows (results : Store) (lowest highest : Int) : List BodyRow :=
  (results.map (fun p => p.2.map (fun d => drawRow p.1 d lowest highest))).flatten

/-- `DrawChart.create_matrix`: the rows, sorted by date then filename with a
stable sort (Python `list.sort` is stable; so is insertion sort). -/
def create_matrix (results : Store) (lowest highest : Int) : List BodyRow :=
  List.insertionSort rowKeyLe (chartRows results lowest highest)

/-- The inner `for check_cell, correct_cell in zip(previous_cells, rule)` loop
of `DrawChart.calc_color`: `true` iff the loop completes without `break`
(`zip` stops at the shorter list). -/
def zipMatch : List Bool → List Bool → Bool
  | _, [] => true
  | [], _ :: _ => true
  | p :: ps, r :: rs => if p = r then zipMatch ps rs else false

/-- `DrawChart.calc_color`: scan the rules in order; skip a rule that needs
more history than is available; return the first rule whose cells all match;
`WHITE` when no rule matches. -/
def calc_color (previous_cells : List Bool) : List (List Bool × String) → String
  | [] => WHITE
  | (rule, color) :: rest =>
      if previous_cells.length < rule.length then calc_color previous_cells rest
      else if zipMatch previous_cells rule then color
      else calc_color previous_cells rest

/-- The boolean at body position `(r, TEXT_COLS + c)` (`self.body[row][col]`),
`false` outside the matrix. -/
def cellAt (rows : List BodyRow) (r c : Nat) : Bool :=
  match rows[r]? with
  | some row => row.cells.getD c false
  | none => false

/-- The `previous_cells` tuple of `DrawChart.create_color_matrix` for body
cell `(r, TEXT_COLS + c)`:
`tuple(reversed(transposed[col][max(row - max_rule_length, 0):row]))` — the
same column's cells at rows r-1, r-2, r-3, most recent first. -/
def previousCells (rows : List BodyRow) (r c : Nat) : List Bool :=
  (((rows.map (fun row => row.cells.getD c false)).take r).drop
      (r - max_rule_length)).reverse

/-- The color `DrawChart.create_color_matrix` stores for body cell
`(r, TEXT_COLS + c)`: the initial `WHITE` fill when the cell is empty,
otherwise `calc_color(previous_cells, COLOR_RULES)`. -/
def colorAt (rows : List BodyRow) (r c : Nat) : String :=
  if cellAt rows r c then calc_color (previousCells rows r c) COLOR_RULES
  else WHITE

/-- `DrawChart.create_color_matrix` in row-major form: a `WHITE` header row,
one row of colors per body row (text columns stay `WHITE`), and `WHITE`
footer rows. -/
def create_color_matrix (rows : List BodyRow) (numCols : Nat) :
    List (List String) :=
  (List.range HEADER_HEIGHT).map
      (fun _ => List.replicate (TEXT_COLS + numCols) WHITE)
    ++ (List.range rows.length).map (fun r =>
        (List.range (TEXT_COLS + numCols)).map (fun col =>
          if col < TEXT_COLS then WHITE else colorAt rows r (col - TEXT_COLS)))
    ++ (List.range FOOTER_HEIGHT).map
        (fun _ => List.replicate (TEXT_COLS + numCols) WHITE)

/-- Round-half-to-even of `num / den`, scaled by `10^4`: the rounding used by
`'{:.4f}'.format(times_drawn / opps)`.  (CPython rounds the IEEE-754 double
nearest to the exact ratio; the model performs the round-half-even directly
on the exact rational, which agrees on the concrete values considered here.) -/
def round4 (num den : Nat) : Nat :=
  let scaled := num * 10000
  let base := scaled / den
  let rem := scaled % den
  if 2 * rem < den then base
  else if den < 2 * rem then base + 1
  else if base % 2 = 0 then base else base + 1

/-- Left-pad the decimal digits of `k` with zeros to width 4. -/
def pad4 (k : Nat) : String :=
  let s := toString k
  String.mk (List.replicate (4 - s.length) '0') ++ s

/-- `'{:.4f}'.format(num / den)` for a non-negative ratio. -/
def fmtFixed4 (num den : Nat) : String :=
  let n := round4 num den
  toString (n / 10000) ++ "." ++ pad4 (n % 10000)

/-- `DrawChart.calc_draw_percentage`: the empty string when there are no
draws, otherwise `'{:.4f}%'.format(times_drawn / opps)` where `times_drawn`
sums `draw.numbers.count(n)` over every draw and `opps` counts the draws. -/
def calc_draw_percentage (results : Store) (n : Int) : String :=
  if (storeDraws results).length = 0 then ""
  else
    fmtFixed4 (((storeDraws results).map (fun d => d.numbers.count n)).sum)
      ((storeDraws results).length) ++ "%"

/-- Modelled from the spec's wording for the rule table: a rule matches the
available history when the history is at least as long as the rule and starts
with exactly the rule's cells. -/
def ruleMatches (prev rule : List Bool) : Bool :=
  decide (rule.length ≤ prev.length) && (prev.take rule.length == rule)

/-- Modelled from the spec's wording: the first rule in order whose tuple
matches the available history wins; the neutral category otherwise. -/
def firstMatchColor (prev : List Bool) (rules : List (List Bool × String)) :
    String :=
  match rules.find? (fun rc => ruleMatches prev rc.1) with
  | some rc => rc.2
  | none => WHITE

/-- Concrete store for the draw-percentage example: 4 draws, the number 7
appears in exactly one of them. -/
def c1Store : Store :=
  [("A", [⟨1, 5, [7, 8], 1, 45⟩, ⟨2, 6, [1, 2], 1, 45⟩,
          ⟨3, 7, [3, 4], 1, 45⟩, ⟨4, 8, [5, 6], 1, 45⟩])]

/-- Concrete body rows whose first numeric column reads
current = drawn, previous = not drawn, two back = drawn, with no third
prior row available. -/
def c5Rows : List BodyRow :=
  [⟨1, "A", [true]⟩, ⟨2, "A", [false]⟩, ⟨3, "A", [true]⟩]

/-- Concrete body rows with one drawn cell that matches no rule (no prior
rows at all) next to a not-drawn cell. -/
def c9Rows : List BodyRow :=
  [⟨1, "A", [true, false]⟩]

/-- Concrete store with two groups: group B's only draw is older than the
cutoff `latest - 1 week`, so the cutoff filter empties the group. -/
def c8Store : Store :=
  [("A", [⟨1, 10, [1], 1, 45⟩]), ("B", [⟨2, 3, [2], 1, 45⟩])]

/-- The `zip` comparison loop agrees with comparing the history's whole
initial segment of the rule's length, whenever enough history is available. -/
theorem zipMatch_eq_take (rule prev : List Bool) (h : rule.length ≤ prev.length) :
    zipMatch prev rule = (prev.take rule.length == rule) := by
  induction rule generalizing prev with
  | nil => cases prev <;> simp [zipMatch]
  | cons r rs ih =>
    cases prev with
    | nil => simp at h
    | cons p ps =>
      simp only [List.length_cons, Nat.add_le_add_iff_right] at h
      simp only [zipMatch, List.take_succ_cons, List.cons_beq_cons]
      by_cases hpr : p = r
      · simp [hpr, ih ps h]
      · simp [hpr]

/-- `calc_color` is first-match-wins over the ordered rule list. -/
theorem calc_color_eq_firstMatch (prev : List Bool)
    (rules : List (List Bool × String)) :
    calc_color prev rules = firstMatchColor prev rules := by
  induction rules with
  | nil => rfl
  | cons rc rest ih =>
    obtain ⟨rule, color⟩ := rc
    by_cases hlen : prev.length < rule.length
    · have hm : ruleMatches prev rule = false := by
        simp only [ruleMatches, Bool.and_eq_false_iff, decide_eq_false_iff_not]
        left
        omega
      simp [calc_color, firstMatchColor, hlen, hm, ih, List.find?]
    · have hle : rule.length ≤ prev.length := Nat.le_of_not_lt hlen
      have hz := zipMatch_eq_take rule prev hle
      by_cases hmatch : zipMatch prev rule = true
      · have hm : ruleMatches prev rule = true := by
          simp only [ruleMatches, Bool.and_eq_true, decide_eq_true_eq]
          exact ⟨hle, hz ▸ hmatch⟩
        simp [calc_color, firstMatchColor, hlen, hmatch, hm, List.find?]
      · have hm : ruleMatches prev rule = false := by
          simp only [ruleMatches, Bool.and_eq_false_iff]
          right
          rw [← hz]
          simpa using hmatch
        simp [calc_color, firstMatchColor, hlen, hmatch, hm, ih, List.find?]

/-- C2: color rules are evaluated against the previous cells in the fixed
order GREEN `(true, true)`, PINK `(false, false, true)`, BLUE `(false, true)`,
GOLD `(true)`, and the first rule whose tuple matches the available history
wins; with the three prior rows all `true` the color is GREEN, not GOLD,
although GOLD's rule also matches. -/
theorem color_rules_first_match_wins :
    COLOR_RULES = [([true, true], GREEN), ([false, false, true], PINK),
                   ([false, true], BLUE), ([true], GOLD)]
    ∧ (∀ prev : List Bool,
        calc_color prev COLOR_RULES = firstMatchColor prev COLOR_RULES)
    ∧ calc_color [true, true, true] COLOR_RULES = GREEN
    ∧ ruleMatches [true, true, true] [true] = true
    ∧ GREEN ≠ GOLD :=
  ⟨rfl, fun prev => calc_color_eq_firstMatch prev COLOR_RULES,
    by decide, by decide, by decide⟩

/-- C5: a rule that requires more prior rows than are available is treated as
non-matching and evaluation falls through to the next rule; a drawn cell with
exactly two prior rows whose column reads current drawn, previous not drawn,
two back drawn is classified BLUE. -/
theorem insufficient_history_falls_through :
    (∀ (prev rule : List Bool) (color : String)
        (rest : List (List Bool × String)),
        prev.length < rule.length →
        calc_color prev ((rule, color) :: rest) = calc_color prev rest)
    ∧ calc_color [false, true] COLOR_RULES = BLUE
    ∧ colorAt c5Rows 2 0 = BLUE := by
  refine ⟨fun prev rule color rest h => ?_, by decide, by decide⟩
  simp [calc_color, h]

/-- Witness for C5: the PINK rule needs three prior rows but only two are
available, so evaluation moves past it. -/
theorem insufficient_history_falls_through_witness :
    calc_color [false, true]
        (([false, false, true], PINK) :: [([false, true], BLUE), ([true], GOLD)])
      = calc_color [false, true] [([false, true], BLUE), ([true], GOLD)] :=
  insufficient_history_falls_through.1 [false, true] [false, false, true] PINK
    [([false, true], BLUE), ([true], GOLD)] (by decide)

/-- C9 counterexample: a drawn body cell that matches no rule (here: no prior
rows at all) receives exactly the same category value, `WHITE`, as a
not-drawn cell, so the unclassified category is not distinct from the
not-drawn category. -/
theorem unclassified_equals_not_drawn :
    cellAt c9Rows 0 0 = true
    ∧ cellAt c9Rows 0 1 = false
    ∧ colorAt c9Rows 0 0 = WHITE
    ∧ colorAt c9Rows 0 1 = WHITE
    ∧ colorAt c9Rows 0 0 = colorAt c9Rows 0 1 := by decide

/-- C9 amended: a drawn body cell matching no rule is assigned `WHITE`, which
is distinct from each of the four named colors but is the very value also
assigned to not-drawn cells. -/
theorem unclassified_color_amended :
    (∀ (prev : List Bool) (rules : List (List Bool × String)),
        (∀ rc ∈ rules, ruleMatches prev rc.1 = false) →
        calc_color prev rules = WHITE)
    ∧ (∀ (rows : List BodyRow) (r c : Nat),
        cellAt rows r c = false → colorAt rows r c = WHITE)
    ∧ WHITE ≠ GREEN ∧ WHITE ≠ GOLD ∧ WHITE ≠ BLUE ∧ WHITE ≠ PINK := by
  refine ⟨fun prev rules h => ?_, fun rows r c h => ?_, by decide, by decide,
    by decide, by decide⟩
  · rw [calc_color_eq_firstMatch]
    unfold firstMatchColor
    rw [List.find?_eq_none.mpr (fun rc hrc => by simp [h rc hrc])]
  · simp [colorAt, h]

/-- Witness for C9 amended: a drawn cell with empty history matches no rule
and is colored `WHITE`; a concrete not-drawn cell is also `WHITE`. -/
theorem unclassified_color_amended_witness :
    calc_color [] COLOR_RULES = WHITE ∧ colorAt c9Rows 0 1 = WHITE :=
  ⟨unclassified_color_amended.1 [] COLOR_RULES (by decide),
    unclassified_color_amended.2.1 c9Rows 0 1 (by decide)⟩

/-- C10: the empty-store no-op branch of `filter_by_cutoff_date` fires only
for the literal empty mapping; a non-empty store whose every group is empty
makes `last_date` return `None`, and the cutoff subtraction on `None` raises
(modelled as `none`). -/
theorem cutoff_empty_groups_error (results : Store) (weeks : Int)
    (hne : results ≠ []) (hempty : ∀ p ∈ results, p.2 = ([] : List Draw)) :
    filter_by_cutoff_date results weeks = none
    ∧ filter_by_cutoff_date ([] : Store) weeks = some [] := by
  have hd : storeDraws results = [] := by
    unfold storeDraws
    rw [List.flatten_eq_nil_iff]
    intro l hl
    obtain ⟨p, hp, rfl⟩ := List.mem_map.mp hl
    exact hempty p hp
  have hld : last_date results = none := by
    unfold last_date
    rw [hd]
    rfl
  refine ⟨?_, rfl⟩
  unfold filter_by_cutoff_date
  rw [if_neg hne, hld]

/-- Witness for C10: a store with one labelled, empty group errors; the
literal empty store is returned unchanged. -/
theorem cutoff_empty_groups_error_witness :
    filter_by_cutoff_date [("A", ([] : List Draw))] 0 = none
    ∧ filter_by_cutoff_date ([] : Store) 0 = some [] :=
  cutoff_empty_groups_error [("A", [])] 0 (by decide) (by decide)

/-- A left fold of `max` bounds its start value. -/
theorem start_le_foldl_max (as : List Int) : ∀ a : Int, a ≤ as.foldl max a := by
  induction as with
  | nil => exact fun a => le_refl a
  | cons b bs ih =>
      intro a
      rw [List.foldl_cons]
      exact le_trans (le_max_left a b) (ih (max a b))

/-- A left fold of `max` bounds every list element. -/
theorem le_foldl_max (as : List Int) (a x : Int) (hx : x = a ∨ x ∈ as) :
    x ≤ as.foldl max a := by
  induction as generalizing a with
  | nil =>
      rcases hx with rfl | hx
      · exact le_refl x
      · cases hx
  | cons b bs ih =>
      rw [List.foldl_cons]
      rcases hx with rfl | hx
      · exact le_trans (le_max_left x b) (start_le_foldl_max bs (max x b))
      · rcases List.mem_cons.mp hx with rfl | hx
        · exact le_trans (le_max_right a x) (start_le_foldl_max bs (max a x))
        · exact ih (max a b) (Or.inr hx)

/-- When `last_date` returns a date, it is an upper bound on every draw's
date in the store. -/
theorem last_date_is_max (results : Store) (latest : Int) (d : Draw)
    (hlast : last_date results = some latest) (hd : d ∈ storeDraws results) :
    d.date ≤ latest := by
  unfold last_date at hlast
  cases hl : (storeDraws results).map Draw.date with
  | nil => rw [hl] at hlast; cases hlast
  | cons a as =>
      rw [hl] at hlast
      rw [List.max?] at hlast
      injection hlast with hlast
      have hmem : d.date ∈ a :: as := hl ▸ List.mem_map_of_mem Draw.date hd
      rw [← hlast]
      exact le_foldl_max as a d.date (by
        rcases List.mem_cons.mp hmem with h | h
        · exact Or.inl h
        · exact Or.inr h)

/-- C4: every draw retained by `filter_by_cutoff_date` is dated strictly
after `latest - weeks*7` days, where `latest` is the maximum date over all
draws of all groups; a draw dated exactly on the cutoff is excluded, and the
empty store is returned unchanged. -/
theorem cutoff_strictly_after (results : Store) (weeks latest : Int)
    (out : Store) (p : String × List Draw) (d : Draw)
    (hlast : last_date results = some latest)
    (hout : filter_by_cutoff_date results weeks = some out)
    (hp : p ∈ out) (hd : d ∈ p.2) :
    (latest - weeks * 7 < d.date ∧ d.date ≠ latest - weeks * 7)
    ∧ (∀ d2 ∈ storeDraws results, d2.date ≤ latest)
    ∧ filter_by_cutoff_date ([] : Store) weeks = some [] := by
  refine ⟨?_, fun d2 hd2 => last_date_is_max results latest d2 hlast hd2, rfl⟩
  by_cases hres : results = []
  · subst hres
    simp [last_date, storeDraws] at hlast
  · unfold filter_by_cutoff_date at hout
    rw [if_neg hres, hlast] at hout
    injection hout with hout
    subst hout
    obtain ⟨p0, _, rfl⟩ := List.mem_map.mp hp
    obtain ⟨_, hpred⟩ := List.mem_filter.mp hd
    have hlt : latest - weeks * 7 < d.date := of_decide_eq_true hpred
    exact ⟨hlt, (ne_of_gt hlt)⟩

/-- Witness for C4: latest date 10, one week cutoff 3; the draw dated 10 is
kept and satisfies the strict bound, the draw dated 3 sits exactly on the
cutoff and is gone. -/
theorem cutoff_strictly_after_witness :
    ((10 : Int) - 1 * 7 < 10 ∧ (10 : Int) ≠ 10 - 1 * 7)
    ∧ (∀ d2 ∈ storeDraws [("A", [⟨1, 10, [1], 1, 45⟩, ⟨2, 3, [2], 1, 45⟩])],
        d2.date ≤ 10)
    ∧ filter_by_cutoff_date ([] : Store) 1 = some [] :=
  cutoff_strictly_after [("A", [⟨1, 10, [1], 1, 45⟩, ⟨2, 3, [2], 1, 45⟩])] 1 10
    [("A", [⟨1, 10, [1], 1, 45⟩])] ("A", [⟨1, 10, [1], 1, 45⟩])
    ⟨1, 10, [1], 1, 45⟩ (by decide) (by decide) (by decide) (by decide)

/-- C8 counterexample: `filter_by_cutoff_date` itself does not drop groups
that become empty — group B survives with an empty draw list when its only
draw falls before the cutoff. -/
theorem cutoff_keeps_empty_groups :
    filter_by_cutoff_date c8Store 1 =
      some [("A", [⟨1, 10, [1], 1, 45⟩]), ("B", ([] : List Draw))]
    ∧ ("B", ([] : List Draw)) ∈
        [("A", [(⟨1, 10, [1], 1, 45⟩ : Draw)]), ("B", ([] : List Draw))] := by
  decide

/-- C8 amended: dropping of emptied groups happens in `filter_results`, after
the cutoff filter: the store `filter_results` returns contains no group whose
draw list is empty. -/
theorem filter_results_drops_empty_groups (results : Store) (days : List Int)
    (weeks : Int) (out : Store) (p : String × List Draw)
    (hout : filter_results results days weeks = some out) (hp : p ∈ out) :
    p.2 ≠ [] := by
  unfold filter_results at hout
  cases hfc : filter_by_cutoff_date (filter_by_weekdays results days) weeks with
  | none =>
      rw [hfc] at hout
      simp at hout
  | some mid =>
      rw [hfc] at hout
      simp only [Option.map_some'] at hout
      injection hout with hout
      subst hout
      exact of_decide_eq_true (List.mem_filter.mp hp).2

/-- Witness for C8 amended: a concrete run of the whole filter pipeline whose
surviving group has a non-empty draw list. -/
theorem filter_results_drops_empty_groups_witness :
    (("A", [(⟨1, 10, [1], 1, 45⟩ : Draw)]) : String × List Draw).2 ≠ [] :=
  filter_results_drops_empty_groups [("A", [⟨1, 10, [1], 1, 45⟩])] [2] 1
    [("A", [⟨1, 10, [1], 1, 45⟩])] ("A", [⟨1, 10, [1], 1, 45⟩])
    (by decide) (by decide)

/-- C7: the body rows of the presence matrix are sorted ascending by the pair
(date, group label) — date ties broken by label — and the construction is
deterministic: two builds from the same store produce the identical row
order. -/
theorem create_matrix_sorted (results results2 : Store) (lowest highest : Int)
    (hsame : results2 = results) :
    List.Sorted rowKeyLe (create_matrix results lowest highest)
    ∧ create_matrix results2 lowest highest = create_matrix results lowest highest :=
  ⟨List.sorted_insertionSort rowKeyLe (chartRows results lowest highest),
    by rw [hsame]⟩

/-- Witness for C7: a concrete two-group store built twice. -/
theorem create_matrix_sorted_witness :
    List.Sorted rowKeyLe
        (create_matrix [("B", [⟨1, 5, [1], 1, 3⟩]), ("A", [⟨2, 4, [2], 1, 3⟩])] 1 3)
    ∧ create_matrix [("B", [⟨1, 5, [1], 1, 3⟩]), ("A", [⟨2, 4, [2], 1, 3⟩])] 1 3
        = create_matrix [("B", [⟨1, 5, [1], 1, 3⟩]), ("A", [⟨2, 4, [2], 1, 3⟩])] 1 3 :=
  create_matrix_sorted [("B", [⟨1, 5, [1], 1, 3⟩]), ("A", [⟨2, 4, [2], 1, 3⟩])]
    [("B", [⟨1, 5, [1], 1, 3⟩]), ("A", [⟨2, 4, [2], 1, 3⟩])] 1 3 rfl

/-- Every weekday found among the filtered draws was requested, and part of a
kept draw of some group of `results`. -/
theorem mem_weekdaysFound (results : Store) (days : List Int) (x : Int)
    (hx : x ∈ weekdaysFound (weekdayFiltered results days)) :
    x ∈ days ∧ ∃ p ∈ results, ∃ draw ∈ p.2, draw.weekday = x := by
  rw [weekdaysFound, List.mem_dedup] at hx
  obtain ⟨l, hl, hxl⟩ := List.mem_flatten.mp hx
  obtain ⟨q, hq, rfl⟩ := List.mem_map.mp hl
  obtain ⟨draw, hdraw, rfl⟩ := List.mem_map.mp hxl
  obtain ⟨p0, hp0, rfl⟩ := List.mem_map.mp hq
  obtain ⟨hmem, hpred⟩ := List.mem_filter.mp hdraw
  exact ⟨of_decide_eq_true hpred, p0, hp0, draw, hmem, rfl⟩

/-- A weekday found among the filtered draws belongs to a kept draw of the
filtered store as well as to a draw of the original store. -/
theorem mem_weekdaysFound_filtered (results : Store) (days : List Int) (x : Int)
    (hx : x ∈ weekdaysFound (weekdayFiltered results days)) :
    ∃ q ∈ weekdayFiltered results days, ∃ draw ∈ q.2, draw.weekday = x := by
  rw [weekdaysFound, List.mem_dedup] at hx
  obtain ⟨l, hl, hxl⟩ := List.mem_flatten.mp hx
  obtain ⟨q, hq, rfl⟩ := List.mem_map.mp hl
  obtain ⟨draw, hdraw, rfl⟩ := List.mem_map.mp hxl
  exact ⟨q, hq, draw, hdraw, rfl⟩

/-- C3: `filter_by_weekdays` returns a non-empty store only if every
requested weekday is the weekday of at least one draw of the filtered result;
when at least one requested weekday has zero matching draws across all
groups, the whole result is the empty store. -/
theorem weekday_coverage (results : Store) (days : List Int) (dy : Int)
    (_hne : results ≠ []) (hdy : dy ∈ days) :
    (filter_by_weekdays results days ≠ [] →
      ∃ p ∈ filter_by_weekdays results days, ∃ draw ∈ p.2, draw.weekday = dy)
    ∧ ((∀ p ∈ results, ∀ draw ∈ p.2, draw.weekday ≠ dy) →
        filter_by_weekdays results days = []) := by
  have hnodup : (weekdaysFound (weekdayFiltered results days)).Nodup :=
    List.nodup_dedup _
  have hcard1 : (weekdaysFound (weekdayFiltered results days)).toFinset.card
      = (weekdaysFound (weekdayFiltered results days)).length :=
    List.toFinset_card_of_nodup hnodup
  constructor
  · intro hres
    by_cases hc : (weekdaysFound (weekdayFiltered results days)).length
        < days.length
    · exact absurd (by rw [filter_by_weekdays, if_pos hc]) hres
    · have heq : filter_by_weekdays results days = weekdayFiltered results days := by
        rw [filter_by_weekdays, if_neg hc]
      have hsub : (weekdaysFound (weekdayFiltered results days)).toFinset
          ⊆ days.toFinset := by
        intro x hxf
        rw [List.mem_toFinset] at hxf ⊢
        exact (mem_weekdaysFound results days x hxf).1
      have hcard2 : days.toFinset.card
          ≤ (weekdaysFound (weekdayFiltered results days)).toFinset.card := by
        have h1 : days.toFinset.card ≤ days.length := List.toFinset_card_le days
        omega
      have hfin : (weekdaysFound (weekdayFiltered results days)).toFinset
          = days.toFinset := Finset.eq_of_subset_of_card_le hsub hcard2
      have hdyf : dy ∈ weekdaysFound (weekdayFiltered results days) := by
        rw [← List.mem_toFinset, hfin, List.mem_toFinset]
        exact hdy
      rw [heq]
      exact mem_weekdaysFound_filtered results days dy hdyf
  · intro habsent
    have hsubE : (weekdaysFound (weekdayFiltered results days)).toFinset
        ⊆ days.toFinset.erase dy := by
      intro x hxf
      rw [List.mem_toFinset] at hxf
      obtain ⟨hxdays, p, hp, draw, hdraw, hwk⟩ :=
        mem_weekdaysFound results days x hxf
      rw [Finset.mem_erase, List.mem_toFinset]
      exact ⟨hwk ▸ habsent p hp draw hdraw, hxdays⟩
    have hcard3 : (days.toFinset.erase dy).card = days.toFinset.card - 1 :=
      Finset.card_erase_of_mem (List.mem_toFinset.mpr hdy)
    have hcard4 : days.toFinset.card ≤ days.length := List.toFinset_card_le days
    have hpos : 0 < days.toFinset.card :=
      Finset.card_pos.mpr ⟨dy, List.mem_toFinset.mpr hdy⟩
    have hcard5 := Finset.card_le_card hsubE
    rw [filter_by_weekdays, if_pos (by omega)]

/-- Witness for C3: a store whose only draw is a Monday, with Monday and
Tuesday requested — Tuesday is unrepresented, so the result is empty. -/
theorem weekday_coverage_witness :
    filter_by_weekdays [("A", [⟨1, 8, [1], 1, 45⟩])] [0, 1] = [] :=
  (weekday_coverage [("A", [⟨1, 8, [1], 1, 45⟩])] [0, 1] 1 (by decide)
    (by decide)).2 (by decide)

/-- C6: the color of the body cell at row `r` and numeric column `c` is a
pure function of that column's boolean values at rows `r`, `r-1`, `r-2`,
`r-3` only — any two matrices agreeing there get the same color, so changing
a cell of a different column, or of the same column at a later row, never
changes the color at `(r, c)`. -/
theorem color_locality (rows rows2 : List BodyRow) (r c : Nat)
    (h : ∀ i, r - 3 ≤ i → i ≤ r → cellAt rows i c = cellAt rows2 i c) :
    colorAt rows r c = colorAt rows2 r c := by
  have hm : max_rule_length = 3 := by decide
  have hcell : cellAt rows r c = cellAt rows2 r c := h r (by omega) (Nat.le_refl r)
  unfold colorAt
  rw [hcell]
  by_cases hcur : cellAt rows2 r c = true
  · simp only [hcur, if_true]
    suffices hpc : previousCells rows r c = previousCells rows2 r c by rw [hpc]
    have hr2 : r < rows2.length := by
      by_contra hge
      have hnone : rows2[r]? = none := List.getElem?_eq_none (by omega)
      unfold cellAt at hcur
      rw [hnone] at hcur
      simp at hcur
    have hr1 : r < rows.length := by
      by_contra hge
      have hnone : rows[r]? = none := List.getElem?_eq_none (by omega)
      have hcur1 : cellAt rows r c = true := hcell ▸ hcur
      unfold cellAt at hcur1
      rw [hnone] at hcur1
      simp at hcur1
    unfold previousCells
    rw [hm]
    congr 1
    apply List.ext_getElem?
    intro j
    rw [List.getElem?_drop, List.getElem?_drop]
    by_cases hj : r - 3 + j < r
    · rw [List.getElem?_take_of_lt hj, List.getElem?_take_of_lt hj]
      rw [List.getElem?_map, List.getElem?_map]
      have hi1 : r - 3 + j < rows.length := by omega
      have hi2 : r - 3 + j < rows2.length := by omega
      rw [List.getElem?_eq_getElem hi1, List.getElem?_eq_getElem hi2]
      simp only [Option.map_some']
      have hwin := h (r - 3 + j) (by omega) (by omega)
      unfold cellAt at hwin
      rw [List.getElem?_eq_getElem hi1, List.getElem?_eq_getElem hi2] at hwin
      exact congrArg some hwin
    · rw [List.getElem?_eq_none, List.getElem?_eq_none]
      · simp only [List.length_take, List.length_map]
        omega
      · simp only [List.length_take, List.length_map]
        omega
  · simp only [hcur, if_false]
    rfl

/-- Witness for C6: two matrices that agree on column 0 at rows 0 and 1 but
differ in column 1 and in a later row give the same color at row 1,
column 0. -/
theorem color_locality_witness :
    colorAt [⟨1, "A", [true, true]⟩, ⟨2, "A", [true, false]⟩] 1 0
      = colorAt [⟨1, "A", [true, false]⟩, ⟨2, "A", [true, true]⟩,
                 ⟨3, "A", [false, false]⟩] 1 0 :=
  color_locality _ _ 1 0 (by
    intro i h1 h2
    interval_cases i <;> rfl)

/-- C1 counterexample: in the 4-draw store where the number 7 appears in
exactly one draw, `calc_draw_percentage` formats the raw ratio `1/4` and
yields `"0.2500%"`, not `"25.0000%"` — the code never multiplies by 100. -/
theorem draw_percentage_not_scaled :
    (storeDraws c1Store).length = 4
    ∧ (storeDraws c1Store).countP (fun d => decide ((7 : Int) ∈ d.numbers)) = 1
    ∧ calc_draw_percentage c1Store 7 = "0.2500%"
    ∧ calc_draw_percentage c1Store 7 ≠ "25.0000%" := by decide

/-- When every draw's number list is duplicate-free, summing
`draw.numbers.count(n)` over the draws counts the draws containing `n`. -/
theorem sum_count_eq_countP (l : List Draw) (n : Int)
    (h : ∀ d ∈ l, d.numbers.Nodup) :
    (l.map (fun d => d.numbers.count n)).sum
      = l.countP (fun d => decide (n ∈ d.numbers)) := by
  induction l with
  | nil => rfl
  | cons d ds ih =>
    rw [List.map_cons, List.sum_cons, List.countP_cons]
    rw [ih (fun x hx => h x (List.mem_cons_of_mem d hx))]
    have hd := h d (List.mem_cons_self d ds)
    by_cases hm : n ∈ d.numbers
    · rw [List.count_eq_one_of_mem hd hm]
      simp [hm]
      omega
    · rw [List.count_eq_zero.mpr hm]
      simp [hm]

/-- The presence cell of a row built for draw `d`, at the column of number
`n`, is exactly `n ∈ d.numbers`. -/
theorem drawRow_cell (fn : String) (d : Draw) (lowest highest n : Int)
    (hlo : lowest ≤ n) (hhi : n ≤ highest) :
    (drawRow fn d lowest highest).cells.getD (n - lowest).toNat false
      = decide (n ∈ d.numbers) := by
  have hlen : (n - lowest).toNat < (numberRange lowest highest).length := by
    unfold numberRange
    rw [List.length_map, List.length_range]
    omega
  show ((numberRange lowest highest).map
      (fun m => decide (m ∈ d.numbers))).getD (n - lowest).toNat false = _
  rw [List.getD_eq_getElem _ _ (by rwa [List.length_map])]
  rw [List.getElem_map]
  have hval : (numberRange lowest highest)[(n - lowest).toNat] = n := by
    unfold numberRange
    rw [List.getElem_map, List.getElem_range]
    simp only [Int.ofNat_eq_natCast]
    omega
  rw [hval]

/-- Filtering the unsorted matrix rows on the column of number `n` counts the
draws containing `n`. -/
theorem countP_chartRows (results : Store) (lowest highest n : Int)
    (hlo : lowest ≤ n) (hhi : n ≤ highest) :
    (chartRows results lowest highest).countP
        (fun row => row.cells.getD (n - lowest).toNat false)
      = (storeDraws results).countP (fun d => decide (n ∈ d.numbers)) := by
  unfold chartRows storeDraws
  rw [List.countP_flatten, List.countP_flatten, List.map_map, List.map_map]
  congr 1
  apply List.map_congr_left
  intro p _
  simp only [Function.comp_apply]
  rw [List.countP_map]
  apply List.countP_congr
  intro d _
  simp only [Function.comp_apply]
  rw [drawRow_cell p.1 d lowest highest n hlo hhi]

/-- The unsorted matrix has one row per draw. -/
theorem length_chartRows (results : Store) (lowest highest : Int) :
    (chartRows results lowest highest).length = (storeDraws results).length := by
  unfold chartRows storeDraws
  rw [List.length_flatten, List.length_flatten, List.map_map, List.map_map]
  congr 1
  apply List.map_congr_left
  intro p _
  simp [Function.comp_apply]

/-- C1 amended: for a number `n` in range, over a non-empty store of
duplicate-free draws, the draw percentage string is the ratio
(count of body rows whose draw contains `n`) / (total body rows) formatted
with fixed 4-decimal precision and a trailing percent sign — the ratio
itself, not multiplied by 100 (so 1 of 4 draws gives `"0.2500%"`); with zero
draws the string is empty. -/
theorem draw_percentage_ratio (results : Store) (lowest highest n : Int)
    (hne : storeDraws results ≠ [])
    (hnd : ∀ d ∈ storeDraws results, d.numbers.Nodup)
    (hlo : lowest ≤ n) (hhi : n ≤ highest) :
    (calc_draw_percentage results n =
      fmtFixed4
        (((create_matrix results lowest highest).filter
            (fun row => row.cells.getD (n - lowest).toNat false)).length)
        (create_matrix results lowest highest).length ++ "%")
    ∧ calc_draw_percentage [] n = "" := by
  refine ⟨?_, rfl⟩
  have hlen0 : ¬(storeDraws results).length = 0 :=
    fun h0 => hne (List.length_eq_zero.mp h0)
  have hperm := List.perm_insertionSort rowKeyLe (chartRows results lowest highest)
  have hnum : ((storeDraws results).map (fun d => d.numbers.count n)).sum
      = ((create_matrix results lowest highest).filter
          (fun row => row.cells.getD (n - lowest).toNat false)).length := by
    rw [sum_count_eq_countP _ _ hnd,
      ← countP_chartRows results lowest highest n hlo hhi,
      ← List.countP_eq_length_filter]
    exact (hperm.countP_eq _).symm
  have hden : (storeDraws results).length
      = (create_matrix results lowest highest).length := by
    rw [create_matrix, hperm.length_eq]
    exact (length_chartRows results lowest highest).symm
  unfold calc_draw_percentage
  rw [if_neg hlen0, hnum, hden]

/-- Witness for C1 amended: a 2-draw store over the range 1..3; the number 2
is in one of the two rows and the percentage string is `"0.5000%"`. -/
theorem draw_percentage_ratio_witness :
    (calc_draw_percentage [("A", [⟨1, 5, [2], 1, 3⟩, ⟨2, 6, [1, 3], 1, 3⟩])] 2 =
      fmtFixed4
        (((create_matrix [("A", [⟨1, 5, [2], 1, 3⟩, ⟨2, 6, [1, 3], 1, 3⟩])] 1 3).filter
            (fun row => row.cells.getD ((2 : Int) - 1).toNat false)).length)
        (create_matrix [("A", [⟨1, 5, [2], 1, 3⟩, ⟨2, 6, [1, 3], 1, 3⟩])] 1 3).length
      ++ "%")
    ∧ calc_draw_percentage [] 2 = "" :=
  draw_percentage_ratio [("A", [⟨1, 5, [2], 1, 3⟩, ⟨2, 6, [1, 3], 1, 3⟩])] 1 3 2
    (by decide) (by decide) (by decide) (by decide)

/-- `colorAt` is exactly the entry of the full color matrix at matrix row
`HEADER_HEIGHT + r` and matrix column `TEXT_COLS + c`. -/
theorem create_color_matrix_cell (rows : List BodyRow) (numCols r c : Nat)
    (hr : r < rows.length) (hc : c < numCols) :
    ((create_color_matrix rows numCols).getD (HEADER_HEIGHT + r) []).getD
        (TEXT_COLS + c) WHITE = colorAt rows r c := by
  have hrow : (create_color_matrix rows numCols).getD (HEADER_HEIGHT + r) []
      = (List.range (TEXT_COLS + numCols)).map (fun col =>
          if col < TEXT_COLS then WHITE else colorAt rows r (col - TEXT_COLS)) := by
    rw [List.getD_eq_getElem?_getD]
    unfold create_color_matrix
    rw [List.getElem?_append]
    rw [if_pos (by
      simp only [List.length_append, List.length_map, List.length_range]
      have h1 : HEADER_HEIGHT = 1 := rfl
      omega)]
    rw [List.getElem?_append_right (by
      simp only [List.length_map, List.length_range]
      omega)]
    simp only [List.length_map, List.length_range]
    have hidx : HEADER_HEIGHT + r - HEADER_HEIGHT = r := by omega
    rw [hidx]
    rw [List.getElem?_map, List.getElem?_range hr]
    simp only [Option.map_some', Option.getD_some]
  rw [hrow]
  have hlen : TEXT_COLS + c <
      ((List.range (TEXT_COLS + numCols)).map (fun col =>
        if col < TEXT_COLS then WHITE
        else colorAt rows r (col - TEXT_COLS))).length := by
    simp only [List.length_map, List.length_range]
    omega
  rw [List.getD_eq_getElem _ _ hlen]
  rw [List.getElem_map, List.getElem_range]
  rw [if_neg (by omega)]
  congr 1
  omega
